import Mathlib

/-!
Verification of the bme-hv-psu core: the hardware `Poller` (poller.py) and the
voltage-sequencing `Interface` (artiq_controller.py).

Modelling choices:
* A bus transaction is an `Action`; control operations and the sequencer are
  embedded as pure functions returning the list of actions they perform, in
  order.  `Action.sleepSec` records the fixed settle delays of the sequencer,
  so ordering between delays and bus writes is visible in the trace.
* Transport faults are injected by an oracle `List Bool`: each bus transaction
  consumes one entry (`true` = the transaction succeeds, `false` = the
  transport raises); an exhausted oracle means every further transaction
  succeeds, so `[]` is fault-free hardware.
* Python floats are modelled as rationals; `round` is Python's
  round-half-to-even (`pyRound`), and `math.isclose` is its documented formula
  with the default `rel_tol = 1e-9`, `abs_tol = 0` (`isClose`).
-/

namespace BmeHvPsu

/-- A bus transaction or a sequencer settle delay, as recorded in execution
traces.  `writeControl hvOn rst` is `write_control_flags` with the set
containing `hv_on` iff `hvOn` and `reset` iff `rst` (flags absent from the set
are cleared); `writeSetPoint` is `write_hv_set_point` with the raw 12-bit
register value; `sleepSec t` is an `asyncio.sleep(t)` of the sequencer. -/
inductive Action where
  | writeControl (hvOn rst : Bool)
  | writeSetPoint (raw : ℤ)
  | sleepSec (t : ℚ)
  deriving DecidableEq, Repr

/-- The error conditions of the core: the two `ValueError`s of
`Interface.set_voltage`, the `ValueError` of `Poller.set_hv_set_point`, and a
transport (bus I/O) fault raised by the driver. -/
inductive Err where
  | negVoltage
  | exceedsMax
  | setPointRange
  | transport
  deriving DecidableEq, Repr

/-- Consume one outcome from the hardware oracle: head of the list, or
success when the list is exhausted (so `[]` models fault-free hardware). -/
def hwStep : List Bool → Bool × List Bool
  | [] => (true, [])
  | b :: r => (b, r)

/-- Python's built-in `round` (round half to even) on a rational, as used in
`int(round(value * (2**12 - 1)))`. -/
def pyRound (q : ℚ) : ℤ :=
  if Int.fract q < 1 / 2 then ⌊q⌋
  else if 1 / 2 < Int.fract q then ⌊q⌋ + 1
  else if ⌊q⌋ % 2 = 0 then ⌊q⌋ else ⌊q⌋ + 1

/-- `math.isclose a b` with the default tolerances `rel_tol = 1e-9`,
`abs_tol = 0.0`: `|a - b| <= max(rel_tol * max(|a|, |b|), 0)`. -/
def isClose (a b : ℚ) : Bool :=
  decide (|a - b| ≤ 1 / 10 ^ 9 * max |a| |b|)

namespace Poller

/-- `Poller.enable_hv(enabled)`: one control write of `{hv_on}` when enabled,
of the empty flag set otherwise.  Returns the propagated error (if the bus
transaction faults), the remaining oracle, and the completed bus calls. -/
def enable_hv (hw : List Bool) (enabled : Bool) :
    Except Err Unit × List Bool × List Action :=
  match hwStep hw with
  | (true, h) => (Except.ok (), h, [Action.writeControl enabled false])
  | (false, h) => (Except.error Err.transport, h, [])

/-- `Poller.set_hv_set_point(value)`: rejects `value` outside `[0, 1]` before
any bus access, otherwise issues one set-point write of
`int(round(value * (2**12 - 1)))`. -/
def set_hv_set_point (hw : List Bool) (value : ℚ) :
    Except Err Unit × List Bool × List Action :=
  if value < 0 ∨ 1 < value then (Except.error Err.setPointRange, hw, [])
  else
    match hwStep hw with
    | (true, h) =>
        (Except.ok (), h, [Action.writeSetPoint (pyRound (value * (2 ^ 12 - 1)))])
    | (false, h) => (Except.error Err.transport, h, [])

/-- `Poller.reset_fault()`: two sequential control writes, `{reset}` then the
empty set, pulsing the reset flag.  A fault in either write propagates; the
second write is only attempted after the first completed. -/
def reset_fault (hw : List Bool) :
    Except Err Unit × List Bool × List Action :=
  match hwStep hw with
  | (false, h1) => (Except.error Err.transport, h1, [])
  | (true, h1) =>
      match hwStep h1 with
      | (false, h2) =>
          (Except.error Err.transport, h2, [Action.writeControl false true])
      | (true, h2) =>
          (Except.ok (), h2,
            [Action.writeControl false true, Action.writeControl false false])

end Poller

/-- `first` in `Interface.set_voltage`: the stored set point is `None`. -/
def firstCall (st : Option ℚ) : Bool := st.isNone

/-- The Python subexpression `self._set_point_volts == 0.0` as evaluated after
`first` was found false (short-circuit), hence only on a stored value. -/
def prevIsZero : Option ℚ → Bool
  | none => false
  | some p => decide (p = 0)

/-- The Python subexpression `self._set_point_volts > 0.0` as evaluated after
`first` was found false (short-circuit), hence only on a stored value. -/
def prevIsPos : Option ℚ → Bool
  | none => false
  | some p => decide (0 < p)

/-- `math.isclose(previous_volts, set_point_volts)` as evaluated after `first`
was found false (short-circuit); the `none` arm is never reached and its value
is irrelevant to `set_voltage`'s result. -/
def sameAsPrev (st : Option ℚ) (v : ℚ) : Bool :=
  match st with
  | none => true
  | some p => isClose p v

/-- Result of one `Interface.set_voltage` call: the returned value or the
raised error, the stored set point afterwards, the remaining hardware oracle,
and the trace of actions performed. -/
structure CallResult where
  ret : Except Err Bool
  state : Option ℚ
  hw : List Bool
  trace : List Action
  deriving Repr

namespace Interface

/-- `Interface.get_voltage()`: returns the stored last programmed voltage
(`none` when never programmed); no hardware access. -/
def get_voltage (st : Option ℚ) : Option ℚ := st

/-- `Interface.set_voltage(set_point_volts)` over stored state `st`, maximum
voltage `vf` (`args.voltage_factor`) and hardware oracle `hw`:
validation, optional enable + 2 s soft-start delay, the set-point write of
`set_point_volts / voltage_factor`, optional 2 s ramp-down delay + disable,
then the state update and the changed flag.  An error anywhere aborts the
remainder and leaves the stored state unchanged, exactly as an exception
would in the Python code. -/
def set_voltage (vf : ℚ) (hw : List Bool) (st : Option ℚ) (v : ℚ) : CallResult :=
  if v < 0 then ⟨Except.error Err.negVoltage, st, hw, []⟩
  else if vf < v then ⟨Except.error Err.exceedsMax, st, hw, []⟩
  else
    let doPre : Bool := decide (0 < v) && (firstCall st || prevIsZero st)
    let pre : Except Err Unit × List Bool × List Action :=
      if doPre then
        match Poller.enable_hv hw true with
        | (Except.ok _, h, t) => (Except.ok (), h, t ++ [Action.sleepSec 2])
        | (Except.error e, h, t) => (Except.error e, h, t)
      else (Except.ok (), hw, [])
    match pre with
    | (Except.error e, hw1, t1) => ⟨Except.error e, st, hw1, t1⟩
    | (Except.ok _, hw1, t1) =>
      match Poller.set_hv_set_point hw1 (v / vf) with
      | (Except.error e, hw2, t2) => ⟨Except.error e, st, hw2, t1 ++ t2⟩
      | (Except.ok _, hw2, t2) =>
        let doPost : Bool := decide (v = 0) && (firstCall st || prevIsPos st)
        let post : Except Err Unit × List Bool × List Action :=
          if doPost then
            match Poller.enable_hv hw2 false with
            | (e, h, t) => (e, h, Action.sleepSec 2 :: t)
          else (Except.ok (), hw2, [])
        match post with
        | (Except.error e, hw3, t3) => ⟨Except.error e, st, hw3, t1 ++ t2 ++ t3⟩
        | (Except.ok _, hw3, t3) =>
          ⟨Except.ok (firstCall st || !sameAsPrev st v), some v, hw3,
            t1 ++ t2 ++ t3⟩

/-- `Interface.reset_fault()`: runs the full `set_voltage(0.0)` sequence, and
only when it completed issues the Poller's fault-reset pulse pair. -/
def reset_fault (vf : ℚ) (hw : List Bool) (st : Option ℚ) :
    Except Err Unit × Option ℚ × List Bool × List Action :=
  let r := set_voltage vf hw st 0
  match r.ret with
  | Except.error e => (Except.error e, r.state, r.hw, r.trace)
  | Except.ok _ =>
      match Poller.reset_fault r.hw with
      | (e, hw2, t2) => (e, r.state, hw2, r.trace ++ t2)

end Interface

/-- The hardware status channels of `driver.StateType` as used by the core;
`status_flags` is the opaque bitfield channel, all others are analog. -/
inductive StateType where
  | imon_up
  | imon_2
  | umon_up
  | ntc_2
  | ntc_1
  | imon_1
  | u_48v
  | u_24v
  | ratio
  | status_flags
  deriving DecidableEq, Repr

/-- The value delivered to a callback in `Poller._run_poll_loop`: the raw
register value for the status-flags channel, `val / (2**12 - 1)` for every
other channel. -/
def scaleValue (ty : StateType) (raw : ℕ) : ℚ :=
  if ty = StateType.status_flags then (raw : ℚ) else (raw : ℚ) / (2 ^ 12 - 1)

/-- Observable events of the background poll loop. -/
inductive PollEvent where
  | readUpdate (ty : StateType) (raw : ℕ)
  | callbackRun (ty : StateType) (value : ℚ)
  | sleepFor (t : ℚ)
  deriving DecidableEq, Repr

/-- Input to one iteration of the poll loop: the outcome of its
`read_state_update` bus call and the time the iteration took up to the sleep
(`self._loop.time() - last_poll_time`). -/
structure IterInput where
  read : Except Err (StateType × ℕ)
  elapsed : ℚ
  deriving Repr

/-- The events of one successful iteration of `Poller._run_poll_loop`: the
state-update read, the callback when the channel has one registered (with the
status-flags value unscaled and every other value divided by `2**12 - 1`), and
the sleep of `max(0.0, polling_interval - elapsed)`. -/
def pollIterationEvents (hasCb : StateType → Bool) (interval : ℚ)
    (ty : StateType) (raw : ℕ) (elapsed : ℚ) : List PollEvent :=
  PollEvent.readUpdate ty raw ::
    ((if hasCb ty then [PollEvent.callbackRun ty (scaleValue ty raw)] else []) ++
      [PollEvent.sleepFor (max 0 (interval - elapsed))])

/-- `Poller._run_poll_loop`, driven by the schedule of iteration inputs: the
loop runs one iteration per input and exits normally when the shutdown flag is
observed (the schedule is exhausted).  A transport fault during a read
terminates the loop immediately: the remaining schedule is never executed (no
restart, no retry), and the error is reported out of the loop. -/
def pollLoop (hasCb : StateType → Bool) (interval : ℚ) :
    List IterInput → List PollEvent × Option Err
  | [] => ([], none)
  | inp :: rest =>
    match inp.read with
    | Except.error e => ([], some e)
    | Except.ok (ty, raw) =>
        let r := pollLoop hasCb interval rest
        (pollIterationEvents hasCb interval ty raw inp.elapsed ++ r.1, r.2)

/-- Where the poll-loop task is suspended when `stop()` sets the shutdown
flag: awaiting the in-flight blocking read (which will deliver the given
update), awaiting its inter-iteration sleep, or already exited.  These are the
loop's only suspension points. -/
inductive LoopPhase where
  | suspendedInRead (ty : StateType) (raw : ℕ) (elapsed : ℚ)
  | suspendedInSleep
  | exited
  deriving DecidableEq, Repr

/-- Observable events from the moment `stop()` is entered. -/
inductive StopEvent where
  | setShutdownFlag
  | readStarts (ty : StateType) (raw : ℕ)
  | readCompletes (ty : StateType) (raw : ℕ)
  | callbackRun (ty : StateType) (value : ℚ)
  | sleepCompletes
  | sleepAborted
  | loopExits
  | stopReturns
  deriving DecidableEq, Repr

namespace Poller

/-- The events the poll-loop task produces after the shutdown flag is set,
from its current suspension point until it exits, under asyncio's cooperative
scheduling: an in-flight blocking read finishes its whole iteration (the
dispatch and the sleep) and the `while` condition then observes the flag; a
pending sleep either completes, or — the one cancellation point — is aborted
by task cancellation (`CancelledError`), which `stop()` suppresses.  No new
read is started once the flag is set. -/
def resumeUnderShutdown (hasCb : StateType → Bool)
    (cancelled : Bool) : LoopPhase → List StopEvent
  | LoopPhase.suspendedInRead ty raw _elapsed =>
      StopEvent.readCompletes ty raw ::
        ((if hasCb ty then [StopEvent.callbackRun ty (scaleValue ty raw)]
          else []) ++
          [StopEvent.sleepCompletes, StopEvent.loopExits])
  | LoopPhase.suspendedInSleep =>
      (if cancelled then [StopEvent.sleepAborted] else [StopEvent.sleepCompletes]) ++
        [StopEvent.loopExits]
  | LoopPhase.exited => []

/-- `Poller.stop()`: set the shutdown flag, await the poll task (suppressing
`CancelledError`), return once the task has fully exited. -/
def stop (hasCb : StateType → Bool) (cancelled : Bool)
    (phase : LoopPhase) : List StopEvent :=
  StopEvent.setShutdownFlag ::
    (resumeUnderShutdown hasCb cancelled phase ++ [StopEvent.stopReturns])

end Poller

/-- The high-voltage-enable state of the hardware after executing a trace of
actions from enable state `hv`: each control write sets it to the write's
`hv_on` flag (flags absent from the written set are cleared); set-point writes
and sleeps leave it unchanged. -/
def hvAfter : List Action → Bool → Bool
  | [], hv => hv
  | Action.writeControl hvOn _ :: rest, _ => hvAfter rest hvOn
  | Action.writeSetPoint _ :: rest, hv => hvAfter rest hv
  | Action.sleepSec _ :: rest, hv => hvAfter rest hv

/-- The configurations `(stored set point, hardware hv-enable state)`
reachable through completed, fault-free sequencer calls, starting from the
fresh state (`none`, with the hardware enable state unknown — the hardware
cannot be queried for it). -/
inductive Reachable (vf : ℚ) : Option ℚ → Bool → Prop where
  | init (hv : Bool) : Reachable vf none hv
  | stepSet (st : Option ℚ) (hv : Bool) (v : ℚ) (b : Bool)
      (hst : Reachable vf st hv)
      (hok : (Interface.set_voltage vf [] st v).ret = Except.ok b) :
      Reachable vf (Interface.set_voltage vf [] st v).state
        (hvAfter (Interface.set_voltage vf [] st v).trace hv)
  | stepReset (st : Option ℚ) (hv : Bool)
      (hst : Reachable vf st hv)
      (hok : (Interface.reset_fault vf [] st).1 = Except.ok ()) :
      Reachable vf (Interface.reset_fault vf [] st).2.1
        (hvAfter (Interface.reset_fault vf [] st).2.2.2 hv)

/-! ### Helper lemmas -/

/-- On fault-free hardware, an accepted `set_voltage` call computes exactly:
optional enable + soft-start delay, the set-point write, optional ramp-down
delay + disable, the state update and the changed flag. -/
theorem set_voltage_spec (vf v : ℚ) (st : Option ℚ)
    (h0 : ¬ v < 0) (h1 : ¬ vf < v) (h2 : ¬ (v / vf < 0 ∨ 1 < v / vf)) :
    Interface.set_voltage vf [] st v =
      ⟨Except.ok (firstCall st || !sameAsPrev st v), some v, [],
        (if (decide (0 < v) && (firstCall st || prevIsZero st)) = true then
          [Action.writeControl true false, Action.sleepSec 2]
        else []) ++
        (Action.writeSetPoint (pyRound (v / vf * (2 ^ 12 - 1))) ::
          (if (decide (v = 0) && (firstCall st || prevIsPos st)) = true then
            [Action.sleepSec 2, Action.writeControl false false]
          else []))⟩ := by
  by_cases hpre : (decide (0 < v) && (firstCall st || prevIsZero st)) = true <;>
    by_cases hpost : (decide (v = 0) && (firstCall st || prevIsPos st)) = true <;>
    simp [Interface.set_voltage, Poller.enable_hv, Poller.set_hv_set_point,
      hwStep, h0, h1, h2, hpre, hpost]

/-- A rejected or faulted `set_voltage` call leaves the stored state
untouched; a completed one stores the new voltage. -/
theorem set_voltage_state (vf v : ℚ) (hw : List Bool) (st : Option ℚ) :
    (∀ e, (Interface.set_voltage vf hw st v).ret = Except.error e →
      (Interface.set_voltage vf hw st v).state = st) ∧
    (∀ b, (Interface.set_voltage vf hw st v).ret = Except.ok b →
      (Interface.set_voltage vf hw st v).state = some v) := by
  unfold Interface.set_voltage
  by_cases hpre : (decide (0 < v) && (firstCall st || prevIsZero st)) = true <;>
    by_cases hpost : (decide (v = 0) && (firstCall st || prevIsPos st)) = true <;>
    simp only [hpre, hpost, if_true, if_false, Bool.not_eq_true, if_neg, if_pos] <;>
    repeat' split
  all_goals simp_all

/-- A `set_voltage` call that returned (did not raise) passed both range
checks and handed `set_hv_set_point` an in-range normalized value. -/
theorem set_voltage_ok_valid (vf v : ℚ) (st : Option ℚ) (b : Bool)
    (h : (Interface.set_voltage vf [] st v).ret = Except.ok b) :
    ¬ v < 0 ∧ ¬ vf < v ∧ ¬ (v / vf < 0 ∨ 1 < v / vf) := by
  unfold Interface.set_voltage at h
  by_cases hpre : (decide (0 < v) && (firstCall st || prevIsZero st)) = true <;>
    by_cases hpost : (decide (v = 0) && (firstCall st || prevIsPos st)) = true <;>
    simp only [hpre, hpost, if_true, if_false, Bool.not_eq_true, if_neg, if_pos,
      Poller.enable_hv, Poller.set_hv_set_point, hwStep] at h <;>
    repeat' split at h
  all_goals try (rename_i heq; split at heq)
  all_goals simp_all

theorem hvAfter_append (t1 t2 : List Action) (hv : Bool) :
    hvAfter (t1 ++ t2) hv = hvAfter t2 (hvAfter t1 hv) := by
  induction t1 generalizing hv with
  | nil => rfl
  | cons a t ih => cases a <;> simp [hvAfter, ih]

theorem pyRound_close (q : ℚ) : |((pyRound q : ℤ) : ℚ) - q| ≤ 1 / 2 := by
  have h0 : (0 : ℚ) ≤ Int.fract q := Int.fract_nonneg q
  have h1 : Int.fract q < 1 := Int.fract_lt_one q
  have hfl : ((⌊q⌋ : ℤ) : ℚ) = q - Int.fract q := by
    have := Int.floor_add_fract q
    linarith
  unfold pyRound
  split
  · next h => rw [hfl, abs_le]; constructor <;> linarith
  · next h =>
    split
    · next h2 => push_cast; rw [hfl, abs_le]; constructor <;> linarith
    · next h2 =>
      have heq : Int.fract q = 1 / 2 := by linarith [not_lt.mp h, not_lt.mp h2]
      split
      · rw [hfl, abs_le]; constructor <;> linarith
      · push_cast; rw [hfl, abs_le]; constructor <;> linarith

theorem set_voltage_ok_hv (vf v : ℚ) (st : Option ℚ) (hv : Bool) (b : Bool)
    (hok : (Interface.set_voltage vf [] st v).ret = Except.ok b)
    (hinv : ∀ p, st = some p → 0 ≤ p ∧ hv = decide (0 < p)) :
    hvAfter (Interface.set_voltage vf [] st v).trace hv = decide (0 < v) := by
  obtain ⟨h0, h1, h2⟩ := set_voltage_ok_valid vf v st b hok
  rw [set_voltage_spec vf v st h0 h1 h2]
  by_cases hpre : (decide (0 < v) && (firstCall st || prevIsZero st)) = true
  · have hvpos : 0 < v := by
      have := (Bool.and_eq_true _ _).mp hpre
      exact of_decide_eq_true this.1
    have hpost : ¬ (decide (v = 0) && (firstCall st || prevIsPos st)) = true := by
      simp [ne_of_gt hvpos]
    have hc1 : (firstCall st || prevIsZero st) = true :=
      ((Bool.and_eq_true _ _).mp hpre).2
    simp [hpre, hpost, hvAfter, hvpos, hc1]
  · by_cases hpost : (decide (v = 0) && (firstCall st || prevIsPos st)) = true
    · have hz : v = 0 := by
        have := (Bool.and_eq_true _ _).mp hpost
        exact of_decide_eq_true this.1
      have hc2 : (firstCall st || prevIsPos st) = true :=
        ((Bool.and_eq_true _ _).mp hpost).2
      rcases (Bool.or_eq_true _ _).mp hc2 with hcf | hcp
      · simp [hpre, hpost, hvAfter, hz, hcf]
      · simp [hpre, hpost, hvAfter, hz, hcp]
    · simp only [hpre, hpost, if_neg, Bool.not_eq_true, if_false]
      simp only [List.nil_append, hvAfter]
      cases st with
      | none =>
        exfalso
        rcases (not_lt.mp h0).lt_or_eq with hvpos | hveq
        · exact hpre (by simp [firstCall, hvpos])
        · exact hpost (by simp [firstCall, ← hveq])
      | some p =>
        obtain ⟨hp0, hphv⟩ := hinv p rfl
        rcases (not_lt.mp h0).lt_or_eq with hvpos | hveq
        · have hpne : ¬ p = 0 := by
            intro hp
            exact hpre (by simp [firstCall, prevIsZero, hp, hvpos])
          have hppos : 0 < p := lt_of_le_of_ne hp0 (Ne.symm hpne)
          simp [hphv, hppos, hvpos]
        · have hpnp : ¬ 0 < p := by
            intro hp
            exact hpost (by simp [firstCall, prevIsPos, hp, ← hveq])
          simp [hphv, hpnp, ← hveq]

theorem isClose_self (a : ℚ) : isClose a a = true := by
  simp only [isClose, sub_self, abs_zero, decide_eq_true_eq]
  positivity

theorem isClose_zero_left (v : ℚ) (hv : 0 < v) : isClose 0 v = false := by
  simp only [isClose, decide_eq_false_iff_not, not_le, zero_sub, abs_neg,
    abs_zero, abs_of_pos hv]
  rw [max_eq_right hv.le]
  nlinarith

theorem isClose_zero_right (p : ℚ) (hp : 0 < p) : isClose p 0 = false := by
  simp only [isClose, decide_eq_false_iff_not, not_le, sub_zero,
    abs_zero, abs_of_pos hp]
  rw [max_eq_left hp.le]
  nlinarith

theorem div_in_range (v vf : ℚ) (h0 : 0 ≤ v) (h1 : v ≤ vf) (hvf : 0 < vf) :
    ¬ (v / vf < 0 ∨ 1 < v / vf) := by
  push_neg
  exact ⟨div_nonneg h0 hvf.le, (div_le_one hvf).mpr h1⟩

/-- A `reset_fault` call that returned: its `set_voltage(0.0)` part completed,
and the resulting trace is that part's trace followed by the reset pulse
pair. -/
theorem reset_fault_ok_decomp (vf : ℚ) (st : Option ℚ)
    (hok : (Interface.reset_fault vf [] st).1 = Except.ok ()) :
    ∃ b, (Interface.set_voltage vf [] st 0).ret = Except.ok b ∧
      Interface.reset_fault vf [] st =
        (Except.ok (), some 0, [],
          (Interface.set_voltage vf [] st 0).trace ++
            [Action.writeControl false true, Action.writeControl false false]) := by
  rcases hret : (Interface.set_voltage vf [] st 0).ret with e | b
  · exfalso
    unfold Interface.reset_fault at hok
    simp only [hret] at hok
    exact Except.noConfusion hok
  · refine ⟨b, rfl, ?_⟩
    obtain ⟨h0, h1, h2⟩ := set_voltage_ok_valid vf 0 st b hret
    have hspec := set_voltage_spec vf 0 st h0 h1 h2
    unfold Interface.reset_fault
    rw [hspec]
    simp [Poller.reset_fault, hwStep]

/-- In every reachable configuration with a stored set point, the stored value
is nonnegative and the tracked hardware enable state is exactly "stored value
positive". -/
theorem reachable_inv (vf : ℚ) {st : Option ℚ} {hv : Bool}
    (h : Reachable vf st hv) :
    ∀ p, st = some p → 0 ≤ p ∧ hv = decide (0 < p) := by
  induction h with
  | init hv0 => intro p hp; exact absurd hp (by simp)
  | stepSet st0 hv0 v b hst hok ih =>
    intro p hp
    rw [(set_voltage_state vf v [] st0).2 b hok] at hp
    obtain rfl : v = p := Option.some.inj hp
    obtain ⟨h0, _, _⟩ := set_voltage_ok_valid vf v st0 b hok
    exact ⟨not_lt.mp h0, set_voltage_ok_hv vf v st0 hv0 b hok ih⟩
  | stepReset st0 hv0 hst hok ih =>
    intro p hp
    obtain ⟨b, hret, hdec⟩ := reset_fault_ok_decomp vf st0 hok
    rw [hdec] at hp ⊢
    have hp2 : some (0 : ℚ) = some p := hp
    obtain rfl : (0 : ℚ) = p := Option.some.inj hp2
    refine ⟨le_refl 0, ?_⟩
    simp [hvAfter_append, hvAfter]

/-- C1: a `set_voltage(volts)` call with `volts > 0` from the unknown state or
from a previously programmed voltage of exactly 0 enables the output, waits
the fixed 2-second soft-start delay, and only then programs the set point
`volts / voltage_factor`; the first-ever such call returns `true`.  In every
other accepted `volts > 0` case the set-point write is the whole trace: no
enable and no delay precede it. -/
theorem set_voltage_soft_start_sequence (vf v : ℚ) (st : Option ℚ)
    (hvpos : 0 < v) (hle : v ≤ vf) :
    ((st = none ∨ st = some 0) →
      Interface.set_voltage vf [] st v =
        ⟨Except.ok true, some v, [],
          [Action.writeControl true false, Action.sleepSec 2,
           Action.writeSetPoint (pyRound (v / vf * (2 ^ 12 - 1)))]⟩) ∧
    (∀ p, st = some p → p ≠ 0 →
      (Interface.set_voltage vf [] st v).trace =
        [Action.writeSetPoint (pyRound (v / vf * (2 ^ 12 - 1)))]) := by
  have h0 : ¬ v < 0 := not_lt.mpr hvpos.le
  have h1 : ¬ vf < v := not_lt.mpr hle
  have hvf : 0 < vf := hvpos.trans_le hle
  have h2 := div_in_range v vf hvpos.le hle hvf
  have hspec := set_voltage_spec vf v st h0 h1 h2
  constructor
  · rintro (rfl | rfl)
    · rw [hspec]
      simp [firstCall, prevIsZero, prevIsPos, hvpos, hvpos.ne']
    · rw [hspec]
      simp [firstCall, prevIsZero, prevIsPos, sameAsPrev, hvpos, hvpos.ne',
        isClose_zero_left v hvpos]
  · rintro p rfl hp
    rw [hspec]
    simp [firstCall, prevIsZero, prevIsPos, hp, hvpos.ne']

theorem set_voltage_soft_start_sequence_witness :
    Interface.set_voltage 10 [] none 5 =
      ⟨Except.ok true, some 5, [],
        [Action.writeControl true false, Action.sleepSec 2,
         Action.writeSetPoint (pyRound (5 / 10 * (2 ^ 12 - 1)))]⟩ :=
  (set_voltage_soft_start_sequence 10 5 none (by norm_num) (by norm_num)).1
    (Or.inl rfl)

/-- C2: a `set_voltage(0.0)` call from the unknown state or from a previously
programmed voltage `> 0` programs the zero set point, waits the fixed
2-second ramp-down delay, then disables the output, in that order; a second
consecutive `set_voltage(0.0)` returns `false` and performs only the
redundant zero set-point write, repeating neither the delay nor the
disable. -/
theorem set_voltage_zero_ramp_down (vf : ℚ) (st : Option ℚ) (hvf : 0 ≤ vf) :
    ((st = none ∨ ∃ p, st = some p ∧ 0 < p) →
      Interface.set_voltage vf [] st 0 =
        ⟨Except.ok true, some 0, [],
          [Action.writeSetPoint 0, Action.sleepSec 2,
           Action.writeControl false false]⟩) ∧
    Interface.set_voltage vf [] (some 0) 0 =
      ⟨Except.ok false, some 0, [], [Action.writeSetPoint 0]⟩ := by
  have h0 : ¬ (0 : ℚ) < 0 := lt_irrefl 0
  have h1 : ¬ vf < 0 := not_lt.mpr hvf
  have h2 : ¬ ((0 : ℚ) / vf < 0 ∨ 1 < (0 : ℚ) / vf) := by
    norm_num
  have hzero : pyRound ((0 : ℚ) / vf * (2 ^ 12 - 1)) = 0 := by
    norm_num [pyRound, Int.fract_zero]
  constructor
  · rintro (rfl | ⟨p, rfl, hp⟩)
    · rw [set_voltage_spec vf 0 none h0 h1 h2, hzero]
      simp [firstCall, prevIsZero, prevIsPos]
    · rw [set_voltage_spec vf 0 (some p) h0 h1 h2, hzero]
      simp [firstCall, prevIsZero, prevIsPos, sameAsPrev, hp, hp.ne,
        isClose_zero_right p hp]
  · rw [set_voltage_spec vf 0 (some 0) h0 h1 h2, hzero]
    simp [firstCall, prevIsZero, prevIsPos, sameAsPrev, isClose_self]

theorem set_voltage_zero_ramp_down_witness :
    (Interface.set_voltage 10 [] (some 5) 0 =
      ⟨Except.ok true, some 0, [],
        [Action.writeSetPoint 0, Action.sleepSec 2,
         Action.writeControl false false]⟩) ∧
    Interface.set_voltage 10 [] (some 0) 0 =
      ⟨Except.ok false, some 0, [], [Action.writeSetPoint 0]⟩ :=
  ⟨(set_voltage_zero_ramp_down 10 (some 5) (by norm_num)).1
      (Or.inr ⟨5, rfl, by norm_num⟩),
    (set_voltage_zero_ramp_down 10 (some 0) (by norm_num)).2⟩

/-- C3: `set_voltage` rejects any `volts < 0` or `volts > voltage_factor`
with a `ValueError` before any hardware access: the trace is empty, the
hardware oracle is untouched, the stored state is unchanged, and a subsequent
`get_voltage` returns the value from before the rejected call. -/
theorem set_voltage_rejects_out_of_range (vf v : ℚ) (hw : List Bool)
    (st : Option ℚ) (hbad : v < 0 ∨ vf < v) :
    ∃ e, Interface.set_voltage vf hw st v = ⟨Except.error e, st, hw, []⟩ ∧
      Interface.get_voltage (Interface.set_voltage vf hw st v).state =
        Interface.get_voltage st := by
  by_cases hneg : v < 0
  · exact ⟨Err.negVoltage, by simp [Interface.set_voltage, hneg],
      by simp [Interface.set_voltage, Interface.get_voltage, hneg]⟩
  · have hmax : vf < v := hbad.resolve_left hneg
    exact ⟨Err.exceedsMax, by simp [Interface.set_voltage, hneg, hmax],
      by simp [Interface.set_voltage, Interface.get_voltage, hneg, hmax]⟩

theorem set_voltage_rejects_out_of_range_witness :
    ∃ e, Interface.set_voltage 10 [] (some 3) 11 =
        ⟨Except.error e, some 3, [], []⟩ ∧
      Interface.get_voltage (Interface.set_voltage 10 [] (some 3) 11).state =
        Interface.get_voltage (some 3) :=
  set_voltage_rejects_out_of_range 10 11 [] (some 3) (Or.inr (by norm_num))

/-- C4: every accepted fault-free `set_voltage` call returns `true` iff it is
the first call ever or the new voltage is not within `math.isclose` tolerance
(`rel_tol = 1e-9`) of the previous one, `false` otherwise — e.g.
`set_voltage(5.0)` twice returns `true` then `false` — and even a `false`
call still issues the set-point write. -/
theorem set_voltage_idempotence_flag (vf v : ℚ) (st : Option ℚ)
    (h0 : 0 ≤ v) (h1 : v ≤ vf) (hvf : 0 < vf) :
    (∃ b, (Interface.set_voltage vf [] st v).ret = Except.ok b ∧
      (b = true ↔ st = none ∨
        ∃ p, st = some p ∧ ¬ |p - v| ≤ 1 / 10 ^ 9 * max |p| |v|)) ∧
    Action.writeSetPoint (pyRound (v / vf * (2 ^ 12 - 1))) ∈
      (Interface.set_voltage vf [] st v).trace ∧
    (Interface.set_voltage 10 [] none 5).ret = Except.ok true ∧
    (Interface.set_voltage 10 [] (some 5) 5).ret = Except.ok false := by
  have h0n : ¬ v < 0 := not_lt.mpr h0
  have h1n : ¬ vf < v := not_lt.mpr h1
  have h2 := div_in_range v vf h0 h1 hvf
  have hspec := set_voltage_spec vf v st h0n h1n h2
  refine ⟨⟨firstCall st || !sameAsPrev st v, by rw [hspec], ?_⟩, ?_, ?_, ?_⟩
  · cases st with
    | none => simp [firstCall, sameAsPrev]
    | some p => simp [firstCall, sameAsPrev, isClose]
  · rw [hspec]
    simp
  · have hc := set_voltage_spec 10 5 none (by norm_num) (by norm_num)
      (by norm_num)
    rw [hc]
    simp [firstCall, sameAsPrev]
  · have hc := set_voltage_spec 10 5 (some 5) (by norm_num) (by norm_num)
      (by norm_num)
    rw [hc]
    simp [firstCall, sameAsPrev, isClose_self]

theorem set_voltage_idempotence_flag_witness :
    ((Interface.set_voltage 10 [] (some 5) 5).ret = Except.ok false) ∧
    Action.writeSetPoint (pyRound (5 / 10 * (2 ^ 12 - 1))) ∈
      (Interface.set_voltage 10 [] (some 5) 5).trace :=
  ⟨(set_voltage_idempotence_flag 10 5 (some 5) (by norm_num) (by norm_num)
      (by norm_num)).2.2.2,
    (set_voltage_idempotence_flag 10 5 (some 5) (by norm_num) (by norm_num)
      (by norm_num)).2.1⟩

/-- C5: from any configuration reachable through completed sequencer calls,
`reset_fault()` runs the complete `set_voltage(0.0)` sequence and only
afterwards issues the Poller reset pulse pair (`{reset}` then `{}`), and at
the moment the pulse pair is issued the tracked output-enable state is
`false`: a fault is never cleared with the output still enabled. -/
theorem reset_fault_output_disabled_first (vf : ℚ) (st : Option ℚ) (hv : Bool)
    (hvf : 0 ≤ vf) (hreach : Reachable vf st hv) :
    Interface.reset_fault vf [] st =
      (Except.ok (), some 0, [],
        (Interface.set_voltage vf [] st 0).trace ++
          [Action.writeControl false true, Action.writeControl false false]) ∧
    hvAfter (Interface.set_voltage vf [] st 0).trace hv = false := by
  have h0 : ¬ (0 : ℚ) < 0 := lt_irrefl 0
  have h1 : ¬ vf < 0 := not_lt.mpr hvf
  have h2 : ¬ ((0 : ℚ) / vf < 0 ∨ 1 < (0 : ℚ) / vf) := by norm_num
  have hspec := set_voltage_spec vf 0 st h0 h1 h2
  have hret : (Interface.set_voltage vf [] st 0).ret =
      Except.ok (firstCall st || !sameAsPrev st 0) := by rw [hspec]
  constructor
  · unfold Interface.reset_fault
    rw [hspec]
    simp [Poller.reset_fault, hwStep]
  · have hinv := reachable_inv vf hreach
    have := set_voltage_ok_hv vf 0 st hv _ hret hinv
    simpa using this

theorem reset_fault_output_disabled_first_witness :
    Interface.reset_fault 10 [] none =
      (Except.ok (), some 0, [],
        (Interface.set_voltage 10 [] none 0).trace ++
          [Action.writeControl false true, Action.writeControl false false]) ∧
    hvAfter (Interface.set_voltage 10 [] none 0).trace true = false :=
  reset_fault_output_disabled_first 10 none true (by norm_num)
    (Reachable.init true)

/-- C6: for every `value` in `[0, 1]` the Poller set-point operation issues
exactly one bus write of raw value `round(value * 4095)`, and a poll read of
raw `r` on any non-status-flags channel delivers `r / 4095` to the callback,
so programming then reading back round-trips within `1 / 4095`; any `value`
outside `[0, 1]` fails with the invalid-argument error and no bus write. -/
theorem set_point_write_round_trip (value : ℚ) (r : ℕ) (ty : StateType) :
    (0 ≤ value → value ≤ 1 →
      Poller.set_hv_set_point [] value =
        (Except.ok (), [],
          [Action.writeSetPoint (pyRound (value * (2 ^ 12 - 1)))]) ∧
      |((pyRound (value * (2 ^ 12 - 1)) : ℤ) : ℚ) / (2 ^ 12 - 1) - value| ≤
        1 / (2 ^ 12 - 1)) ∧
    (ty ≠ StateType.status_flags → scaleValue ty r = (r : ℚ) / (2 ^ 12 - 1)) ∧
    (value < 0 ∨ 1 < value →
      Poller.set_hv_set_point [] value =
        (Except.error Err.setPointRange, [], [])) := by
  refine ⟨fun hv0 hv1 => ⟨?_, ?_⟩, fun hty => ?_, fun hbad => ?_⟩
  · have : ¬ (value < 0 ∨ 1 < value) := by push_neg; exact ⟨hv0, hv1⟩
    simp [Poller.set_hv_set_point, hwStep, this]
  · have hclose := pyRound_close (value * (2 ^ 12 - 1))
    have hpos : (0 : ℚ) < 2 ^ 12 - 1 := by norm_num
    set A : ℚ := ((pyRound (value * (2 ^ 12 - 1)) : ℤ) : ℚ) with hA
    have h1 : A - value * (2 ^ 12 - 1) =
        (A / (2 ^ 12 - 1) - value) * (2 ^ 12 - 1) := by
      field_simp
      ring
    have hmul : |A - value * (2 ^ 12 - 1)| =
        |A / (2 ^ 12 - 1) - value| * (2 ^ 12 - 1) := by
      rw [h1, abs_mul, abs_of_pos hpos]
    nlinarith [hclose, hmul, abs_nonneg (A / (2 ^ 12 - 1) - value)]
  · simp [scaleValue, hty]
  · simp [Poller.set_hv_set_point, hbad]

theorem set_point_write_round_trip_witness :
    Poller.set_hv_set_point [] (1 / 2) =
      (Except.ok (), [],
        [Action.writeSetPoint (pyRound ((1 : ℚ) / 2 * (2 ^ 12 - 1)))]) ∧
    Poller.set_hv_set_point [] 2 = (Except.error Err.setPointRange, [], []) :=
  ⟨((set_point_write_round_trip (1 / 2) 0 StateType.umon_up).1 (by norm_num)
      (by norm_num)).1,
    (set_point_write_round_trip 2 0 StateType.umon_up).2.2
      (Or.inr (by norm_num))⟩

/-- C7: transport faults are never swallowed and never retried: a bus fault
in `enable_hv`, `set_hv_set_point` or the Poller's `reset_fault` propagates
to the caller as the transport error with no further bus call; a bus fault on
the first transaction of an accepted `set_voltage` propagates out of the
sequencer; and a read fault inside the poll loop terminates the loop at that
iteration — the remaining schedule is never executed and the error is
surfaced. -/
theorem transport_errors_propagate :
    (∀ (hw : List Bool) (en : Bool),
      Poller.enable_hv (false :: hw) en = (Except.error Err.transport, hw, [])) ∧
    (∀ (hw : List Bool) (value : ℚ), ¬ (value < 0 ∨ 1 < value) →
      Poller.set_hv_set_point (false :: hw) value =
        (Except.error Err.transport, hw, [])) ∧
    (∀ hw : List Bool,
      Poller.reset_fault (false :: hw) = (Except.error Err.transport, hw, [])) ∧
    (∀ (vf v : ℚ) (st : Option ℚ) (hw : List Bool),
      ¬ v < 0 → ¬ vf < v → ¬ (v / vf < 0 ∨ 1 < v / vf) →
      (Interface.set_voltage vf (false :: hw) st v).ret =
        Except.error Err.transport) ∧
    (∀ (hasCb : StateType → Bool) (interval : ℚ) (good : List IterInput)
      (bad : IterInput) (rest : List IterInput) (e : Err),
      (∀ i ∈ good, ∃ u, i.read = Except.ok u) →
      bad.read = Except.error e →
      pollLoop hasCb interval (good ++ bad :: rest) =
        ((pollLoop hasCb interval good).1, some e)) := by
  refine ⟨fun hw en => rfl, fun hw value hval => ?_, fun hw => rfl,
    fun vf v st hw h0 h1 h2 => ?_, fun hasCb interval good bad rest e hg hb => ?_⟩
  · simp [Poller.set_hv_set_point, hwStep, hval]
  · unfold Interface.set_voltage
    rw [if_neg h0, if_neg h1]
    by_cases hpre : (decide (0 < v) && (firstCall st || prevIsZero st)) = true <;>
      simp [hpre, Poller.enable_hv, Poller.set_hv_set_point, hwStep, h2]
  · induction good with
    | nil =>
      simp [pollLoop, hb]
    | cons g gs ih =>
      obtain ⟨⟨ty, raw⟩, hread⟩ := hg g (List.mem_cons_self g gs)
      have ihr := ih fun i hi => hg i (List.mem_cons_of_mem g hi)
      simp [pollLoop, hread, ihr]

theorem transport_errors_propagate_witness :
    Poller.set_hv_set_point [false] (1 / 2) =
      (Except.error Err.transport, [], []) ∧
    (Interface.set_voltage 10 [false] (some 3) 5).ret =
      Except.error Err.transport ∧
    pollLoop (fun _ => true) 1
        ([⟨Except.error Err.transport, 0⟩] : List IterInput) =
      ([], some Err.transport) :=
  ⟨transport_errors_propagate.2.1 [] (1 / 2) (by norm_num),
    transport_errors_propagate.2.2.2.1 10 5 (some 3) [] (by norm_num)
      (by norm_num) (by norm_num),
    transport_errors_propagate.2.2.2.2 (fun _ => true) 1 []
      ⟨Except.error Err.transport, 0⟩ [] Err.transport (by simp) rfl⟩

/-- C9: the stored last-programmed voltage is committed only at the very end
of a `set_voltage` call, after every hardware operation completed: any raised
error — including a transport fault right after the enable write — leaves the
state unchanged, so `get_voltage` still returns the value from before the
failed call, and a completed call stores exactly the new voltage. -/
theorem controller_state_commit (vf v : ℚ) (hw : List Bool) (st : Option ℚ) :
    (∀ e, (Interface.set_voltage vf hw st v).ret = Except.error e →
      Interface.get_voltage (Interface.set_voltage vf hw st v).state =
        Interface.get_voltage st) ∧
    (∀ b, (Interface.set_voltage vf hw st v).ret = Except.ok b →
      (Interface.set_voltage vf hw st v).state = some v) ∧
    (0 < v → v ≤ vf → 0 < vf →
      Interface.set_voltage vf [true, false] (some 0) v =
        ⟨Except.error Err.transport, some 0, [],
          [Action.writeControl true false, Action.sleepSec 2]⟩) := by
  refine ⟨fun e he => ?_, (set_voltage_state vf v hw st).2, fun hv0 hv1 hvf => ?_⟩
  · exact congrArg Interface.get_voltage ((set_voltage_state vf v hw st).1 e he)
  · have h2 := div_in_range v vf hv0.le hv1 hvf
    unfold Interface.set_voltage
    rw [if_neg (not_lt.mpr hv0.le), if_neg (not_lt.mpr hv1)]
    simp [firstCall, prevIsZero, hv0, Poller.enable_hv, Poller.set_hv_set_point,
      hwStep, h2]

theorem controller_state_commit_witness :
    Interface.set_voltage 10 [true, false] (some 0) 5 =
      ⟨Except.error Err.transport, some 0, [],
        [Action.writeControl true false, Action.sleepSec 2]⟩ :=
  (controller_state_commit 10 5 [true, false] (some 0)).2.2 (by norm_num)
    (by norm_num) (by norm_num)

/-- C10: each poll-loop iteration reads exactly one state update; the
callback runs iff the returned channel has one registered, receiving the raw
value unscaled for the status-flags channel and the raw value divided by
`2**12 - 1` for every other channel; and the iteration then sleeps
`max(0, interval - elapsed)`, so the effective period can grow but never
shrink below the target interval. -/
theorem poll_iteration_dispatch (hasCb : StateType → Bool)
    (interval elapsed : ℚ) (ty : StateType) (raw : ℕ) (rest : List IterInput) :
    pollLoop hasCb interval (⟨Except.ok (ty, raw), elapsed⟩ :: rest) =
      (pollIterationEvents hasCb interval ty raw elapsed ++
          (pollLoop hasCb interval rest).1,
        (pollLoop hasCb interval rest).2) ∧
    List.countP (fun ev => match ev with
        | PollEvent.readUpdate _ _ => true
        | _ => false) (pollIterationEvents hasCb interval ty raw elapsed) = 1 ∧
    ((∃ val, PollEvent.callbackRun ty val ∈
        pollIterationEvents hasCb interval ty raw elapsed) ↔ hasCb ty = true) ∧
    (hasCb ty = true →
      PollEvent.callbackRun ty
          (if ty = StateType.status_flags then (raw : ℚ)
            else (raw : ℚ) / (2 ^ 12 - 1)) ∈
        pollIterationEvents hasCb interval ty raw elapsed) ∧
    (∀ t, PollEvent.sleepFor t ∈
        pollIterationEvents hasCb interval ty raw elapsed →
      t = max 0 (interval - elapsed) ∧ 0 ≤ t ∧ interval ≤ elapsed + t) := by
  refine ⟨?_, ?_, ?_, ?_, ?_⟩
  · simp [pollLoop]
  · cases hcb : hasCb ty <;> simp [pollIterationEvents, hcb]
  · cases hcb : hasCb ty <;> simp [pollIterationEvents, hcb]
  · intro hcb
    simp [pollIterationEvents, hcb, scaleValue]
  · intro t ht
    have hteq : t = max 0 (interval - elapsed) := by
      cases hcb : hasCb ty <;> simp [pollIterationEvents, hcb] at ht <;> tauto
    subst hteq
    refine ⟨rfl, le_max_left _ _, ?_⟩
    have := le_max_right (0 : ℚ) (interval - elapsed)
    linarith

theorem poll_iteration_dispatch_witness :
    PollEvent.callbackRun StateType.umon_up
        (if StateType.umon_up = StateType.status_flags then ((819 : ℕ) : ℚ)
          else ((819 : ℕ) : ℚ) / (2 ^ 12 - 1)) ∈
      pollIterationEvents (fun _ => true) 1 StateType.umon_up 819 0 :=
  (poll_iteration_dispatch (fun _ => true) 1 0 StateType.umon_up 819 []).2.2.2.1
    rfl

/-- C8: `stop()` sets the shutdown flag first and returns only after the poll
task has fully exited: the flag-set event heads every stop trace, the
stop-return event is last, the loop-exit event precedes it whenever the task
had not already exited, and no new poll read starts after the flag is set.
An in-flight read finishes its iteration; a pending sleep completes or — at
the single cancellation point — is aborted by `CancelledError`, which `stop`
suppresses.  The loop's shutdown check sits between the inter-iteration sleep
and the next read: an iteration begins with its read and ends with its sleep,
and a loop resumed with the flag observed performs no read at all. -/
theorem stop_waits_for_loop_exit (hasCb : StateType → Bool) (cancelled : Bool)
    (phase : LoopPhase) (interval elapsed : ℚ) (ty : StateType) (raw : ℕ) :
    (Poller.stop hasCb cancelled phase).head? =
      some StopEvent.setShutdownFlag ∧
    (Poller.stop hasCb cancelled phase).getLast? =
      some StopEvent.stopReturns ∧
    (∀ ty2 raw2,
      StopEvent.readStarts ty2 raw2 ∉ Poller.stop hasCb cancelled phase) ∧
    (phase ≠ LoopPhase.exited →
      StopEvent.loopExits ∈ Poller.stop hasCb cancelled phase) ∧
    (cancelled = true →
      Poller.stop hasCb cancelled LoopPhase.suspendedInSleep =
        [StopEvent.setShutdownFlag, StopEvent.sleepAborted,
         StopEvent.loopExits, StopEvent.stopReturns]) ∧
    (pollIterationEvents hasCb interval ty raw elapsed).head? =
      some (PollEvent.readUpdate ty raw) ∧
    (pollIterationEvents hasCb interval ty raw elapsed).getLast? =
      some (PollEvent.sleepFor (max 0 (interval - elapsed))) ∧
    pollLoop hasCb interval [] = ([], none) := by
  refine ⟨rfl, ?_, ?_, ?_, ?_, rfl, ?_, rfl⟩
  · have hshape : Poller.stop hasCb cancelled phase =
        (StopEvent.setShutdownFlag ::
          Poller.resumeUnderShutdown hasCb cancelled phase) ++
          [StopEvent.stopReturns] := by
      simp [Poller.stop]
    rw [hshape, List.getLast?_concat]
  · intro ty2 raw2
    cases phase <;> cases cancelled <;>
      simp [Poller.stop, Poller.resumeUnderShutdown]
  · intro hph
    cases phase <;> cases cancelled <;>
      simp_all [Poller.stop, Poller.resumeUnderShutdown]
  · intro hc
    subst hc
    rfl
  · have hshape : pollIterationEvents hasCb interval ty raw elapsed =
        (PollEvent.readUpdate ty raw ::
          (if hasCb ty then
            [PollEvent.callbackRun ty (scaleValue ty raw)] else [])) ++
          [PollEvent.sleepFor (max 0 (interval - elapsed))] := by
      simp [pollIterationEvents]
    rw [hshape, List.getLast?_concat]

theorem stop_waits_for_loop_exit_witness :
    StopEvent.readStarts StateType.u_48v 7 ∉
      Poller.stop (fun _ => true) false
        (LoopPhase.suspendedInRead StateType.u_48v 7 1) ∧
    LoopPhase.suspendedInRead StateType.u_48v 7 1 ≠ LoopPhase.exited ∧
    StopEvent.loopExits ∈
      Poller.stop (fun _ => true) false
        (LoopPhase.suspendedInRead StateType.u_48v 7 1) :=
  ⟨(stop_waits_for_loop_exit (fun _ => true) false
        (LoopPhase.suspendedInRead StateType.u_48v 7 1) 1 1
        StateType.u_48v 7).2.2.1 StateType.u_48v 7,
    by simp,
    (stop_waits_for_loop_exit (fun _ => true) false
        (LoopPhase.suspendedInRead StateType.u_48v 7 1) 1 1
        StateType.u_48v 7).2.2.2.1 (by simp)⟩

end BmeHvPsu

